import Mathlib

/-!
Verification development for the UNCaGED library (device side of Calibre's
wireless "Smart Device" protocol).  The definitions below are shallow
embeddings of the Go source: byte streams are lists of characters, machine
integers are `Nat`/`Int` with explicit wrap-around where it matters, and
fallible operations return `Option`.  Each section names the source function
it embeds.
-/

namespace UNCaGED

/-! ## Decimal digits: model of `fmt.Sprintf("%d", n)` and `strconv.Atoi`
(as used by `buildJSONpayload` and `readTCP` in `uc/uc.go`). -/

/-- The ASCII character of a single decimal digit. -/
def digitChar (d : Nat) : Char := Char.ofNat (48 + d)

/-- Decimal representation of a natural number, most significant digit first;
model of `fmt.Sprintf("%d", n)` for `n ≥ 0`. -/
def natChars (n : Nat) : List Char :=
  if n = 0 then [digitChar 0] else ((Nat.digits 10 n).map digitChar).reverse

/-- ASCII decimal digit test on a character (byte range 48–57). -/
def isDigitCh (c : Char) : Bool := decide (48 ≤ c.toNat) && decide (c.toNat ≤ 57)

/-- Value of an ASCII digit character. -/
def charDigit (c : Char) : Nat := c.toNat - 48

/-- Accumulating base-10 parse of a digit string. -/
def parseDigits (cs : List Char) : Nat := cs.foldl (fun a c => a * 10 + charDigit c) 0

/-- Model of `strconv.Atoi` on the nonnegative inputs the protocol produces:
all characters must be decimal digits and at least one must be present. -/
def atoiNat (cs : List Char) : Option Nat :=
  if cs ≠ [] ∧ cs.all isDigitCh then some (parseDigits cs) else none

theorem charDigit_digitChar {d : Nat} (h : d < 10) : charDigit (digitChar d) = d := by
  interval_cases d <;> rfl

theorem isDigitCh_digitChar {d : Nat} (h : d < 10) : isDigitCh (digitChar d) = true := by
  interval_cases d <;> rfl

theorem natChars_ne_nil (n : Nat) : natChars n ≠ [] := by
  unfold natChars
  split
  · simp
  · next h =>
    simp only [ne_eq, List.reverse_eq_nil_iff, List.map_eq_nil_iff]
    exact Nat.digits_ne_nil_iff_ne_zero.mpr h

theorem natChars_all_digits (n : Nat) : (natChars n).all isDigitCh = true := by
  unfold natChars
  split
  · rfl
  · rw [List.all_eq_true]
    intro c hc
    rw [List.mem_reverse, List.mem_map] at hc
    obtain ⟨d, hd, rfl⟩ := hc
    exact isDigitCh_digitChar (Nat.digits_lt_base (by norm_num) hd)

theorem foldr_eq_ofDigits (ds : List Nat) :
    ds.foldr (fun d a => a * 10 + d) 0 = Nat.ofDigits 10 ds := by
  induction ds with
  | nil => rfl
  | cons d t ih => simp [Nat.ofDigits_cons, ih]; ring

theorem foldr_charDigit (ds : List Nat) (h : ∀ d ∈ ds, d < 10) :
    ds.foldr (fun d a => a * 10 + charDigit (digitChar d)) 0
      = ds.foldr (fun d a => a * 10 + d) 0 := by
  induction ds with
  | nil => rfl
  | cons d t ih =>
    simp only [List.foldr_cons]
    rw [charDigit_digitChar (h d (List.mem_cons_self d t)),
      ih (fun x hx => h x (List.mem_cons_of_mem d hx))]

theorem parseDigits_natChars (n : Nat) : parseDigits (natChars n) = n := by
  unfold natChars
  split
  · next h => simp [h, parseDigits, charDigit, digitChar]
  · unfold parseDigits
    rw [List.foldl_reverse, List.foldr_map]
    rw [foldr_charDigit _ (fun d hd => Nat.digits_lt_base (by norm_num) hd),
      foldr_eq_ofDigits, Nat.ofDigits_digits]

theorem atoiNat_natChars (n : Nat) : atoiNat (natChars n) = some n := by
  unfold atoiNat
  rw [if_pos ⟨natChars_ne_nil n, natChars_all_digits n⟩, parseDigits_natChars]

/-! ## Wire codec

Model of `buildJSONpayload` (`uc/uc.go:41`) and of the read/decode path
`readTCP` (`uc/uc.go:346`) / `decodeCalibrePayload` (`uc/uc.go:259`).
A frame is `N[O,P]` where `N` is the ASCII decimal byte length of `[O,P]`. -/

/-- Literal `{` character (byte 123). -/
def lbraceCh : Char := Char.ofNat 123

/-- Literal `}` character (byte 125). -/
def rbraceCh : Char := Char.ofNat 125

/-- Model of `buildJSONpayload(data, op)`: `jsonBytes` stands for the output
of `json.Marshal(data)`; the frame is `[%d,%s]` of the opcode and those bytes,
prefixed with the frame's decimal length. -/
def buildJSONpayload (jsonBytes : List Char) (op : Nat) : List Char :=
  let frame := '[' :: (natChars op ++ ',' :: jsonBytes ++ [']'])
  natChars frame.length ++ frame

/-- The bracketed part `[O,P]` of an encoded frame. -/
def frameOf (op : Nat) (p : List Char) : List Char :=
  '[' :: (natChars op ++ ',' :: p ++ [']'])

theorem buildJSONpayload_eq (op : Nat) (p : List Char) :
    buildJSONpayload p op = natChars (frameOf op p).length ++ frameOf op p := rfl

/-- Model of `bufio.Reader.ReadBytes('[')`: the bytes up to and including the
first `[`, plus the remaining stream; `none` models the EOF error raised when
no `[` arrives. -/
def readBytesUntilLBrack : List Char → Option (List Char × List Char)
  | [] => none
  | c :: rest =>
    if c = '[' then some ([c], rest)
    else
      match readBytesUntilLBrack rest with
      | none => none
      | some (pre, post) => some (c :: pre, post)

/-- Model of `readTCP`: read the size prefix up to `[`, unread the `[`,
strip it from the size bytes, `Atoi` the size and read that many bytes.
The source discards `io.ReadFull`'s error, so a short stream simply yields
the bytes that are present. -/
def readTCP (stream : List Char) : Option (List Char × List Char) :=
  match readBytesUntilLBrack stream with
  | none => none
  | some (msgSz, rest) =>
    let stream1 := '[' :: rest
    let szChars := if msgSz.getLast? = some '[' then msgSz.dropLast else msgSz
    match atoiNat szChars with
    | none => none
    | some sz => some (stream1.take sz, stream1.drop sz)

/-- Scanner state used to model how `json.Unmarshal` into `[]json.RawMessage`
delimits the elements of a JSON array: bracket/brace depth, whether the scan
is inside a string literal, and whether the previous character was a
backslash escape. -/
structure ScanSt where
  depth : Nat
  inStr : Bool
  esc : Bool
deriving DecidableEq, Repr

/-- One character of JSON scanning. -/
def scanStep (st : ScanSt) (c : Char) : ScanSt :=
  if st.inStr then
    if st.esc then { st with esc := false }
    else if c = '\\' then { st with esc := true }
    else if c = '"' then { st with inStr := false }
    else st
  else if c = '"' then { st with inStr := true }
  else if c = '[' ∨ c = lbraceCh then { st with depth := st.depth + 1 }
  else if c = ']' ∨ c = rbraceCh then { st with depth := st.depth - 1 }
  else st

/-- Scan a whole character list. -/
def scanList (st : ScanSt) (cs : List Char) : ScanSt := cs.foldl scanStep st

/-- Split a JSON array body at its top-level commas; this is how decoding a
2-element array into `[]json.RawMessage` partitions the body into the raw
bytes of its elements. -/
def splitTopAux : List Char → ScanSt → List Char → List (List Char)
  | [], _, acc => [acc.reverse]
  | c :: rest, st, acc =>
    if st.inStr = false ∧ st.depth = 0 ∧ c = ',' then
      acc.reverse :: splitTopAux rest ⟨0, false, false⟩ []
    else splitTopAux rest (scanStep st c) (c :: acc)

def splitTop (body : List Char) : List (List Char) := splitTopAux body ⟨0, false, false⟩ []

/-- `true` when scanning `cs` from `st` never meets a comma, `]` or `}` at
top level (depth 0, outside a string).  The serialized form of any single
JSON value satisfies this from the initial state: every comma or closing
bracket inside it is nested or quoted. -/
def noTopSplit : List Char → ScanSt → Bool
  | [], _ => true
  | c :: rest, st =>
    if st.inStr = false ∧ st.depth = 0 ∧ (c = ',' ∨ c = ']' ∨ c = rbraceCh) then false
    else noTopSplit rest (scanStep st c)

/-- The byte strings `json.Marshal` can produce: nonempty, and no top-level
comma or closing bracket (a serialized JSON value is a single balanced
token train). -/
def IsJsonChunk (p : List Char) : Prop :=
  p ≠ [] ∧ noTopSplit p ⟨0, false, false⟩ = true

instance (p : List Char) : Decidable (IsJsonChunk p) := by
  unfold IsJsonChunk; infer_instance

/-- Model of `decodeCalibrePayload`: unmarshal the frame as a JSON array of
raw messages, `Atoi` the first element as the opcode, return the second
element's raw bytes as the payload. -/
def decodeCalibrePayload (payload : List Char) : Option (Nat × List Char) :=
  match payload with
  | '[' :: rest =>
    if rest.getLast? = some ']' then
      match splitTop rest.dropLast with
      | e0 :: e1 :: _ => (atoiNat e0).map fun op => (op, e1)
      | _ => none
    else none
  | _ => none

/-- Model of `readDecodeCalibrePayload`: one frame read followed by decode,
also returning the unconsumed remainder of the stream. -/
def readDecodeCalibrePayload (stream : List Char) :
    Option ((Nat × List Char) × List Char) :=
  match readTCP stream with
  | none => none
  | some (payload, rest) =>
    match decodeCalibrePayload payload with
    | none => none
    | some r => some (r, rest)

/-- Decode `n` consecutive frames from a stream. -/
def decodeFrames : Nat → List Char → Option (List (Nat × List Char))
  | 0, _ => some []
  | n + 1, stream =>
    match readDecodeCalibrePayload stream with
    | none => none
    | some (f, rest) => (decodeFrames n rest).map fun fs => f :: fs

/-- Concatenation of the encodings of a list of `(opcode, payload)` pairs. -/
def encodeFrames (frames : List (Nat × List Char)) : List Char :=
  frames.foldr (fun f acc => buildJSONpayload f.2 f.1 ++ acc) []

/-! ### Codec lemmas -/

theorem isDigitCh_bounds {c : Char} (h : isDigitCh c = true) :
    48 ≤ c.toNat ∧ c.toNat ≤ 57 := by
  unfold isDigitCh at h
  simpa using h

theorem digit_ne_comma {c : Char} (h : isDigitCh c = true) : c ≠ ',' := by
  intro e; subst e; exact absurd h (by decide)

theorem digit_ne_rbrack {c : Char} (h : isDigitCh c = true) : c ≠ ']' := by
  intro e; subst e; exact absurd h (by decide)

theorem digit_ne_rbrace {c : Char} (h : isDigitCh c = true) : c ≠ rbraceCh := by
  intro e; subst e; exact absurd h (by decide)

theorem digit_ne_lbrack {c : Char} (h : isDigitCh c = true) : c ≠ '[' := by
  intro e; subst e; exact absurd h (by decide)

theorem scanStep_digit {c : Char} (h : isDigitCh c = true) :
    scanStep ⟨0, false, false⟩ c = ⟨0, false, false⟩ := by
  have h1 : c ≠ '"' := by intro e; subst e; exact absurd h (by decide)
  have h2 : c ≠ '[' := digit_ne_lbrack h
  have h3 : c ≠ lbraceCh := by intro e; subst e; exact absurd h (by decide)
  have h4 : c ≠ ']' := digit_ne_rbrack h
  have h5 : c ≠ rbraceCh := digit_ne_rbrace h
  simp [scanStep, h1, h2, h3, h4, h5]

theorem scanList_digits (ds : List Char) (h : ds.all isDigitCh = true) :
    scanList ⟨0, false, false⟩ ds = ⟨0, false, false⟩ := by
  induction ds with
  | nil => rfl
  | cons c t ih =>
    rw [List.all_cons, Bool.and_eq_true] at h
    show scanList (scanStep ⟨0, false, false⟩ c) t = _
    rw [scanStep_digit h.1]
    exact ih h.2

theorem noTopSplit_digits (ds : List Char) (h : ds.all isDigitCh = true) :
    noTopSplit ds ⟨0, false, false⟩ = true := by
  induction ds with
  | nil => rfl
  | cons c t ih =>
    rw [List.all_cons, Bool.and_eq_true] at h
    unfold noTopSplit
    rw [if_neg, scanStep_digit h.1]
    · exact ih h.2
    · rintro ⟨-, -, hc⟩
      rcases hc with hc | hc | hc
      · exact digit_ne_comma h.1 hc
      · exact digit_ne_rbrack h.1 hc
      · exact digit_ne_rbrace h.1 hc

theorem splitTopAux_append (p : List Char) :
    ∀ st acc rest, noTopSplit p st = true →
      splitTopAux (p ++ rest) st acc = splitTopAux rest (scanList st p) (p.reverse ++ acc) := by
  induction p with
  | nil => intro st acc rest _; simp [scanList]
  | cons c p' ih =>
    intro st acc rest h
    unfold noTopSplit at h
    by_cases hc : st.inStr = false ∧ st.depth = 0 ∧ (c = ',' ∨ c = ']' ∨ c = rbraceCh)
    · rw [if_pos hc] at h; exact absurd h (by simp)
    · rw [if_neg hc] at h
      have hcomma : ¬(st.inStr = false ∧ st.depth = 0 ∧ c = ',') := by
        rintro ⟨h1, h2, h3⟩; exact hc ⟨h1, h2, Or.inl h3⟩
      have lhs : splitTopAux ((c :: p') ++ rest) st acc
          = splitTopAux (p' ++ rest) (scanStep st c) (c :: acc) := by
        show splitTopAux (c :: (p' ++ rest)) st acc = _
        rw [splitTopAux, if_neg hcomma]
      rw [lhs, ih (scanStep st c) (c :: acc) rest h]
      simp [scanList]

theorem splitTopAux_closed (p : List Char) (st : ScanSt) (acc : List Char)
    (h : noTopSplit p st = true) :
    splitTopAux p st acc = [(acc.reverse ++ p)] := by
  have := splitTopAux_append p st acc [] h
  rw [List.append_nil] at this
  rw [this]
  show [(p.reverse ++ acc).reverse] = _
  simp

theorem splitTop_frame (op : Nat) (p : List Char)
    (hp : noTopSplit p ⟨0, false, false⟩ = true) :
    splitTop (natChars op ++ ',' :: p) = [natChars op, p] := by
  unfold splitTop
  rw [splitTopAux_append (natChars op) _ _ _ (noTopSplit_digits _ (natChars_all_digits op)),
    scanList_digits _ (natChars_all_digits op)]
  unfold splitTopAux
  rw [if_pos ⟨rfl, rfl, rfl⟩, splitTopAux_closed p _ _ hp]
  simp

theorem readBytesUntilLBrack_digits (ds : List Char) (h : ds.all isDigitCh = true)
    (t : List Char) :
    readBytesUntilLBrack (ds ++ '[' :: t) = some (ds ++ ['['], t) := by
  induction ds with
  | nil => simp [readBytesUntilLBrack]
  | cons c ds' ih =>
    rw [List.all_cons, Bool.and_eq_true] at h
    show readBytesUntilLBrack (c :: (ds' ++ '[' :: t)) = _
    unfold readBytesUntilLBrack
    rw [if_neg (digit_ne_lbrack h.1), ih h.2]
    rfl

theorem readTCP_encoded (op : Nat) (p rest : List Char) :
    readTCP (buildJSONpayload p op ++ rest) = some (frameOf op p, rest) := by
  have hassoc : buildJSONpayload p op ++ rest
      = natChars (frameOf op p).length ++ '[' ::
        ((natChars op ++ ',' :: p ++ [']']) ++ rest) := by
    rw [buildJSONpayload_eq]
    simp [frameOf]
  rw [hassoc]
  unfold readTCP
  rw [readBytesUntilLBrack_digits _ (natChars_all_digits _) _]
  dsimp only
  rw [List.getLast?_concat, List.dropLast_concat, if_pos rfl, atoiNat_natChars]
  dsimp only
  have hlen : (frameOf op p).length = (natChars op ++ ',' :: p ++ [']']).length + 1 := by
    simp [frameOf]
  rw [hlen]
  rw [List.take_succ_cons, List.drop_succ_cons, List.take_left, List.drop_left]
  rfl

theorem decodeCalibrePayload_encoded (op : Nat) (p : List Char) (hp : IsJsonChunk p) :
    decodeCalibrePayload (frameOf op p) = some (op, p) := by
  obtain ⟨hne, hsplit⟩ := hp
  have hconc : natChars op ++ ',' :: p ++ [']'] = (natChars op ++ ',' :: p) ++ [']'] := by
    simp
  show decodeCalibrePayload ('[' :: (natChars op ++ ',' :: p ++ [']'])) = _
  unfold decodeCalibrePayload
  rw [hconc]
  simp only [List.getLast?_concat, List.dropLast_concat, if_pos rfl,
    splitTop_frame op p hsplit, atoiNat_natChars, Option.map_some']
  simp

theorem readDecode_encoded (op : Nat) (p : List Char) (hp : IsJsonChunk p)
    (rest : List Char) :
    readDecodeCalibrePayload (buildJSONpayload p op ++ rest) = some ((op, p), rest) := by
  unfold readDecodeCalibrePayload
  rw [readTCP_encoded]
  dsimp only
  rw [decodeCalibrePayload_encoded op p hp]

theorem decodeFrames_encodeFrames (frames : List (Nat × List Char))
    (h : ∀ f ∈ frames, IsJsonChunk f.2) :
    decodeFrames frames.length (encodeFrames frames) = some frames := by
  induction frames with
  | nil => rfl
  | cons f fs ih =>
    show decodeFrames (fs.length + 1) (buildJSONpayload f.2 f.1 ++ encodeFrames fs) = _
    unfold decodeFrames
    rw [readDecode_encoded f.1 f.2 (h f (List.mem_cons_self f fs)) _]
    dsimp only
    rw [ih (fun x hx => h x (List.mem_cons_of_mem f hx))]
    rfl

/-- C3: for every opcode and JSON payload, `buildJSONpayload` emits a frame
whose ASCII-decimal prefix equals the byte length of the rest of the frame;
the read/decode path (`readTCP` then `decodeCalibrePayload`) yields back
exactly the `(opcode, payload)` pair; and a stream of N concatenated frames
decodes to the N pairs in order. -/
theorem frame_codec_roundtrip (op : Nat) (p : List Char) (hp : IsJsonChunk p)
    (frames : List (Nat × List Char)) (hfs : ∀ f ∈ frames, IsJsonChunk f.2) :
    (∃ pre post, buildJSONpayload p op = pre ++ post ∧ pre ≠ [] ∧
        pre.all isDigitCh = true ∧ parseDigits pre = post.length) ∧
    readDecodeCalibrePayload (buildJSONpayload p op) = some ((op, p), []) ∧
    decodeFrames frames.length (encodeFrames frames) = some frames := by
  refine ⟨⟨natChars (frameOf op p).length, frameOf op p, rfl, natChars_ne_nil _,
    natChars_all_digits _, parseDigits_natChars _⟩, ?_,
    decodeFrames_encodeFrames frames hfs⟩
  have h := readDecode_encoded op p hp []
  rwa [List.append_nil] at h

/-- Witness for C3 at opcode 12 with payload `{}` and a two-frame stream. -/
theorem frame_codec_roundtrip_witness :
    IsJsonChunk ("\x7b\x7d".data) ∧
    readDecodeCalibrePayload (buildJSONpayload ("\x7b\x7d".data) 12)
      = some ((12, "\x7b\x7d".data), []) := by
  have h : IsJsonChunk ("\x7b\x7d".data) := by decide
  exact ⟨h, (frame_codec_roundtrip 12 _ h [] (by simp)).2.1⟩

/-! ## SHA-1: model of the `crypto/sha1` digest used by `hashCalPassword`
(`uc/uc.go:296`).  32-bit words are naturals reduced mod 2^32. -/

/-- Truncate to a 32-bit word. -/
def w32 (n : Nat) : Nat := n % 4294967296

/-- Rotate a 32-bit word left by `s`. -/
def rotl (s n : Nat) : Nat := w32 (n * 2 ^ s + n / 2 ^ (32 - s))

/-- Big-endian 8-byte encoding of the bit length. -/
def be64 (n : Nat) : List Nat :=
  [n / 2 ^ 56 % 256, n / 2 ^ 48 % 256, n / 2 ^ 40 % 256, n / 2 ^ 32 % 256,
    n / 2 ^ 24 % 256, n / 2 ^ 16 % 256, n / 2 ^ 8 % 256, n % 256]

/-- SHA-1 padding: a 0x80 byte, zeros to 56 mod 64, then the bit length. -/
def sha1Pad (msg : List Nat) : List Nat :=
  let padLen := (55 + 64 - msg.length % 64) % 64
  msg ++ 128 :: (List.replicate padLen 0 ++ be64 (msg.length * 8))

/-- Big-endian 32-bit words from bytes. -/
def bytesToWords : List Nat → List Nat
  | b0 :: b1 :: b2 :: b3 :: rest =>
    (((b0 * 256 + b1) * 256 + b2) * 256 + b3) :: bytesToWords rest
  | _ => []

/-- Split a word list into `n` chunks of 16 words. -/
def chunkWords : Nat → List Nat → List (List Nat)
  | 0, _ => []
  | n + 1, ws => ws.take 16 :: chunkWords n (ws.drop 16)

/-- Append one expanded schedule word. -/
def sha1ExtendStep (w : List Nat) : List Nat :=
  let l := w.length
  w ++ [rotl 1 ((w.getD (l - 3) 0) ^^^ (w.getD (l - 8) 0) ^^^
    (w.getD (l - 14) 0) ^^^ (w.getD (l - 16) 0))]

/-- Expand the 16-word block to the 80-word schedule (64 extension steps). -/
def sha1Extend : Nat → List Nat → List Nat
  | 0, w => w
  | n + 1, w => sha1Extend n (sha1ExtendStep w)

/-- The round-dependent boolean function. -/
def sha1F (t b c d : Nat) : Nat :=
  if t < 20 then (b &&& c) ||| ((b ^^^ 4294967295) &&& d)
  else if t < 40 then b ^^^ c ^^^ d
  else if t < 60 then (b &&& c) ||| (b &&& d) ||| (c &&& d)
  else b ^^^ c ^^^ d

/-- The round-dependent constant. -/
def sha1K (t : Nat) : Nat :=
  if t < 20 then 1518500249 else if t < 40 then 1859775393
  else if t < 60 then 2400959708 else 3395469782

/-- The five 32-bit working registers. -/
structure Sha1State where
  a : Nat
  b : Nat
  c : Nat
  d : Nat
  e : Nat
deriving DecidableEq, Repr

/-- One SHA-1 round. -/
def sha1Round (t wt : Nat) (s : Sha1State) : Sha1State :=
  ⟨w32 (rotl 5 s.a + sha1F t s.b s.c s.d + s.e + sha1K t + wt),
    s.a, rotl 30 s.b, s.c, s.d⟩

/-- Run the rounds over the schedule starting at round `t`. -/
def sha1Rounds : Nat → List Nat → Sha1State → Sha1State
  | _, [], s => s
  | t, wt :: ws, s => sha1Rounds (t + 1) ws (sha1Round t wt s)

/-- Compress one 16-word block into the chaining state. -/
def sha1Block (h : Sha1State) (ws : List Nat) : Sha1State :=
  let s := sha1Rounds 0 (sha1Extend 64 ws) h
  ⟨w32 (h.a + s.a), w32 (h.b + s.b), w32 (h.c + s.c), w32 (h.d + s.d), w32 (h.e + s.e)⟩

/-- The SHA-1 initialization vector. -/
def sha1Init : Sha1State := ⟨1732584193, 4023233417, 2562383102, 271733878, 3285377520⟩

/-- Big-endian bytes of a 32-bit word. -/
def wordBytes (n : Nat) : List Nat :=
  [n / 2 ^ 24 % 256, n / 2 ^ 16 % 256, n / 2 ^ 8 % 256, n % 256]

/-- The SHA-1 digest (20 bytes) of a byte sequence. -/
def sha1 (msg : List Nat) : List Nat :=
  let padded := sha1Pad msg
  let h := (chunkWords (padded.length / 64) (bytesToWords padded)).foldl sha1Block sha1Init
  wordBytes h.a ++ wordBytes h.b ++ wordBytes h.c ++ wordBytes h.d ++ wordBytes h.e

/-- Lowercase hex digit. -/
def hexChar (n : Nat) : Char := if n < 10 then Char.ofNat (48 + n) else Char.ofNat (87 + n)

/-- Model of `hex.EncodeToString`: two lowercase hex digits per byte. -/
def hexEncode (bs : List Nat) : List Char :=
  bs.foldr (fun b acc => hexChar (b / 16) :: hexChar (b % 16) :: acc) []

/-- Model of `calConn.hashCalPassword` (`uc/uc.go:296`): concatenate the stored
password and the challenge (as their UTF-8 bytes), SHA-1 the result and hex
encode it. -/
def hashCalPassword (serverPassword challenge : List Nat) : String :=
  ⟨hexEncode (sha1 (serverPassword ++ challenge))⟩

/-- The `passwordHash` capability field computed by `getInitInfo`
(`uc/uc.go:497`): empty unless a challenge was received. -/
def getInitInfoPassHash (serverPassword challenge : List Nat) : String :=
  if challenge ≠ [] then hashCalPassword serverPassword challenge else ""

/-- UTF-8 bytes of `"uncaged"`. -/
def uncagedBytes : List Nat := [117, 110, 99, 97, 103, 101, 100]

/-- UTF-8 bytes of `"abc"`. -/
def abcBytes : List Nat := [97, 98, 99]

set_option maxRecDepth 100000 in
/-- C4: `hashCalPassword` is the lowercase hex of SHA1(password ‖ challenge):
at password `"uncaged"` and challenge `"abc"` it is hex(SHA1("uncagedabc")),
with the empty password it is hex(SHA1(challenge)) — both checked against the
standard SHA-1 digests — and an empty `passwordChallenge` makes the
capability reply's `passwordHash` field the empty string. -/
theorem hashCalPassword_spec :
    (∀ pw ch, hashCalPassword pw ch = ⟨hexEncode (sha1 (pw ++ ch))⟩) ∧
    hashCalPassword uncagedBytes abcBytes = "4aca87025712eb5b18a38f2a6bdd0e62c114eebb" ∧
    hashCalPassword [] abcBytes = "a9993e364706816aba3e25717850c26c9cd0d89d" ∧
    (∀ pw, getInitInfoPassHash pw [] = "") := by
  refine ⟨fun pw ch => rfl, by decide, by decide, fun pw => rfl⟩

/-! ## The internal book catalog: `UncagedDB` (`uc/uc.go:99`–`175`,
types in `uc/uctypes.go`). -/

/-- Model of `BookCountDetails`; `Extension` and `LastModified` ride along
as opaque strings (their values never influence the claims). -/
structure BookCountDetails where
  PriKey : Int
  UUID : String
  Extension : String
  Lpath : String
  LastModified : String
deriving DecidableEq, Repr

/-- Model of `CalibreBookMeta` restricted to the fields the claims touch:
identity (`uuid`, `lpath`), the five mapping fields and the three sequence
fields.  A Go nil map or nil slice is `none`; a non-nil one carries its
entries (map values as their raw JSON text). -/
structure CalibreBookMeta where
  UUID : String
  Lpath : String
  Authors : Option (List String)
  Languages : Option (List String)
  Tags : Option (List String)
  UserMetadata : Option (List (String × String))
  UserCategories : Option (List (String × String))
  AuthorSortMap : Option (List (String × String))
  AuthorLinkMap : Option (List (String × String))
  Identifiers : Option (List (String × String))
deriving DecidableEq, Repr

/-- Model of `UncagedDB`. -/
structure UncagedDB where
  nextKey : Int
  booklist : List BookCountDetails
deriving DecidableEq, Repr

/-- The `ucdbSearchType` constants. -/
inductive UcdbSearchType where
  | PriKey
  | Lpath
deriving DecidableEq, Repr

/-- Model of `UncagedDB.newPriKey` (`uc/uc.go:100`). -/
def UncagedDB.newPriKey (ucdb : UncagedDB) : Int × UncagedDB :=
  (ucdb.nextKey, { ucdb with nextKey := ucdb.nextKey + 1 })

/-- First match of a predicate in the booklist, with its index — the linear
search both branches of `find` perform. -/
def findFirst (pred : BookCountDetails → Bool) : List BookCountDetails →
    Option (Nat × BookCountDetails)
  | [] => none
  | b :: rest =>
    if pred b then some (0, b)
    else (findFirst pred rest).map fun r => (r.1 + 1, r.2)

/-- Model of `UncagedDB.find` (`uc/uc.go:108`): linear search stopping at the
first record whose key or lpath matches; the `interface` value is modelled
as the typed sum, and a mismatched type yields the error (`none`), as do the
no-match cases. -/
def UncagedDB.find (ucdb : UncagedDB) (searchType : UcdbSearchType)
    (value : Int ⊕ String) : Option (Nat × BookCountDetails) :=
  match searchType, value with
  | .PriKey, .inl k => findFirst (fun b => decide (b.PriKey = k)) ucdb.booklist
  | .Lpath, .inr l => findFirst (fun b => decide (b.Lpath = l)) ucdb.booklist
  | _, _ => none

/-- Model of `UncagedDB.length` (`uc/uc.go:145`). -/
def UncagedDB.length (ucdb : UncagedDB) : Nat := ucdb.booklist.length

/-- Model of `UncagedDB.addEntry` (`uc/uc.go:150`): build a record from the
metadata's uuid and lpath (other fields zero-valued), give it a fresh
primary key and append it to the booklist. -/
def UncagedDB.addEntry (ucdb : UncagedDB) (md : CalibreBookMeta) : UncagedDB :=
  let r := ucdb.newPriKey
  { r.2 with booklist := r.2.booklist ++
      [{ PriKey := r.1, UUID := md.UUID, Extension := "", Lpath := md.Lpath,
         LastModified := "" }] }

/-- Model of `UncagedDB.removeEntry` (`uc/uc.go:160`): find the record, fail
if the search fails, otherwise drop the record at the found index. -/
def UncagedDB.removeEntry (ucdb : UncagedDB) (searchType : UcdbSearchType)
    (value : Int ⊕ String) : Option UncagedDB :=
  match ucdb.find searchType value with
  | none => none
  | some r =>
    some { ucdb with booklist := ucdb.booklist.take r.1 ++ ucdb.booklist.drop (r.1 + 1) }

/-- Key assignment loop of `initDB`. -/
def initDBAux (nextKey : Int) : List BookCountDetails → Int × List BookCountDetails
  | [] => (nextKey, [])
  | b :: rest =>
    let r := initDBAux (nextKey + 1) rest
    (r.1, { b with PriKey := nextKey } :: r.2)

/-- Model of `UncagedDB.initDB` (`uc/uc.go:170`): install the booklist and
assign each entry the next primary key in order. -/
def UncagedDB.initDB (ucdb : UncagedDB) (bl : List BookCountDetails) : UncagedDB :=
  let r := initDBAux ucdb.nextKey bl
  { nextKey := r.1, booklist := r.2 }

/-- lpath uniqueness of a booklist, as claimed by the spec. -/
def lpathUnique (bl : List BookCountDetails) : Prop :=
  bl.Pairwise fun a b => a.Lpath ≠ b.Lpath

instance (bl : List BookCountDetails) : Decidable (lpathUnique bl) := by
  unfold lpathUnique; infer_instance

/-- C2 counterexample: `sendBook` inserts via `addEntry`, which appends
unconditionally — after inserting metadata whose lpath equals an existing
entry's lpath the catalog holds two entries with that lpath, so the claimed
replace-and-keep-pri-key behaviour and the uniqueness invariant both fail. -/
theorem addEntry_lpath_collision_cex :
    ((((UncagedDB.initDB ⟨0, []⟩ [⟨0, "U1", "", "a.epub", ""⟩]).addEntry
        ⟨"U2", "a.epub", none, none, none, none, none, none, none, none⟩).booklist.map
          BookCountDetails.Lpath) = ["a.epub", "a.epub"]) ∧
    ¬ lpathUnique ((UncagedDB.initDB ⟨0, []⟩ [⟨0, "U1", "", "a.epub", ""⟩]).addEntry
        ⟨"U2", "a.epub", none, none, none, none, none, none, none, none⟩).booklist := by
  exact ⟨by decide, by decide⟩

/-- C2 amended: `addEntry` (hence the `sendBook` insertion) always appends a
new record under the next primary key, leaving existing entries — including
their keys — untouched; when the inserted lpath already occurs in the
booklist, the booklist afterwards contains two entries sharing that lpath,
so lpath uniqueness is not maintained. -/
theorem addEntry_appends (db : UncagedDB) (md : CalibreBookMeta)
    (h : ∃ e ∈ db.booklist, e.Lpath = md.Lpath) :
    (db.addEntry md).booklist
      = db.booklist ++ [⟨db.nextKey, md.UUID, "", md.Lpath, ""⟩] ∧
    (db.addEntry md).nextKey = db.nextKey + 1 ∧
    ¬ lpathUnique (db.addEntry md).booklist := by
  refine ⟨rfl, rfl, ?_⟩
  obtain ⟨e, he, help⟩ := h
  intro hu
  unfold lpathUnique at hu
  rw [show (db.addEntry md).booklist
      = db.booklist ++ [⟨db.nextKey, md.UUID, "", md.Lpath, ""⟩] from rfl,
    List.pairwise_append] at hu
  exact hu.2.2 e he _ (List.mem_singleton_self _) help

/-- Witness for the amended C2 theorem at a one-entry catalog. -/
theorem addEntry_appends_witness :
    (∃ e ∈ (UncagedDB.mk 1 [⟨0, "U1", "", "a.epub", ""⟩]).booklist,
        e.Lpath = (CalibreBookMeta.mk "U2" "a.epub"
          none none none none none none none none).Lpath) ∧
    ¬ lpathUnique ((UncagedDB.mk 1 [⟨0, "U1", "", "a.epub", ""⟩]).addEntry
        (CalibreBookMeta.mk "U2" "a.epub" none none none none none none none none)).booklist :=
  ⟨⟨⟨0, "U1", "", "a.epub", ""⟩, by decide, by decide⟩,
    (addEntry_appends _ _ ⟨⟨0, "U1", "", "a.epub", ""⟩, by decide, by decide⟩).2.2⟩

theorem findFirst_eq (pred : BookCountDetails → Bool) :
    ∀ (bl : List BookCountDetails) (i : Nat) (hi : i < bl.length),
      pred (bl.get ⟨i, hi⟩) = true →
      (∀ j (hj : j < i), pred (bl.get ⟨j, Nat.lt_trans hj hi⟩) = false) →
      findFirst pred bl = some (i, bl.get ⟨i, hi⟩) := by
  intro bl
  induction bl with
  | nil => intro i hi; exact absurd hi (by simp)
  | cons b rest ih =>
    intro i hi hm hb
    cases i with
    | zero =>
      unfold findFirst
      rw [show (b :: rest).get ⟨0, hi⟩ = b from rfl] at hm
      rw [hm]
      rfl
    | succ j =>
      have hb0 : pred b = false := hb 0 (Nat.succ_pos j)
      unfold findFirst
      rw [hb0]
      have hj' : j < rest.length := Nat.lt_of_succ_lt_succ hi
      have hget : (b :: rest).get ⟨j + 1, hi⟩ = rest.get ⟨j, hj'⟩ := rfl
      rw [hget] at hm
      have hbefore : ∀ j' (hj2 : j' < j),
          pred (rest.get ⟨j', Nat.lt_trans hj2 hj'⟩) = false := by
        intro j' hj2
        have := hb (j' + 1) (Nat.succ_lt_succ hj2)
        simpa using this
      rw [ih j hj' hm hbefore]
      simp [hget]

/-- C10: when the booklist holds several entries with the same lpath, `find`
with the `Lpath` search type returns the entry at the smallest matching
index, `removeEntry` by lpath removes exactly that entry (entries after the
removed index — including later duplicates — stay), and `find` by `PriKey`
obeys the same first-match rule. -/
theorem find_first_match_rule (nk : Int) (bl : List BookCountDetails)
    (i : Nat) (hi : i < bl.length) :
    (∀ l : String, (bl.get ⟨i, hi⟩).Lpath = l →
      (∀ j (hj : j < i), (bl.get ⟨j, Nat.lt_trans hj hi⟩).Lpath ≠ l) →
      UncagedDB.find ⟨nk, bl⟩ .Lpath (.inr l) = some (i, bl.get ⟨i, hi⟩) ∧
      UncagedDB.removeEntry ⟨nk, bl⟩ .Lpath (.inr l)
        = some ⟨nk, bl.take i ++ bl.drop (i + 1)⟩) ∧
    (∀ k : Int, (bl.get ⟨i, hi⟩).PriKey = k →
      (∀ j (hj : j < i), (bl.get ⟨j, Nat.lt_trans hj hi⟩).PriKey ≠ k) →
      UncagedDB.find ⟨nk, bl⟩ .PriKey (.inl k) = some (i, bl.get ⟨i, hi⟩)) := by
  constructor
  · intro l hm hb
    have hfind : UncagedDB.find ⟨nk, bl⟩ .Lpath (.inr l) = some (i, bl.get ⟨i, hi⟩) := by
      unfold UncagedDB.find
      exact findFirst_eq _ bl i hi (by simpa using hm)
        (fun j hj => by simpa using hb j hj)
    refine ⟨hfind, ?_⟩
    unfold UncagedDB.removeEntry
    rw [hfind]
  · intro k hm hb
    unfold UncagedDB.find
    exact findFirst_eq _ bl i hi (by simpa using hm)
      (fun j hj => by simpa using hb j hj)

/-- Witness for C10 on a booklist where indices 0 and 2 share an lpath and a
primary key: the earliest entry is found and removed, the later duplicate
survives. -/
theorem find_first_match_rule_witness :
    ((⟨7, [⟨1, "Ua", "", "dup.epub", ""⟩, ⟨2, "Ub", "", "b.epub", ""⟩,
        ⟨1, "Uc", "", "dup.epub", ""⟩]⟩ : UncagedDB).find
      .Lpath (.inr "dup.epub") = some (0, ⟨1, "Ua", "", "dup.epub", ""⟩)) ∧
    ((⟨7, [⟨1, "Ua", "", "dup.epub", ""⟩, ⟨2, "Ub", "", "b.epub", ""⟩,
        ⟨1, "Uc", "", "dup.epub", ""⟩]⟩ : UncagedDB).removeEntry
      .Lpath (.inr "dup.epub")
      = some ⟨7, [⟨2, "Ub", "", "b.epub", ""⟩, ⟨1, "Uc", "", "dup.epub", ""⟩]⟩) ∧
    ((⟨7, [⟨1, "Ua", "", "dup.epub", ""⟩, ⟨2, "Ub", "", "b.epub", ""⟩,
        ⟨1, "Uc", "", "dup.epub", ""⟩]⟩ : UncagedDB).find
      .PriKey (.inl 1) = some (0, ⟨1, "Ua", "", "dup.epub", ""⟩)) := by
  have h := find_first_match_rule 7
    [⟨1, "Ua", "", "dup.epub", ""⟩, ⟨2, "Ub", "", "b.epub", ""⟩,
      ⟨1, "Uc", "", "dup.epub", ""⟩] 0 (by decide)
  obtain ⟨h1, h2⟩ := h
  have ha := h1 "dup.epub" (by decide) (fun j hj => absurd hj (by omega))
  have hb := h2 1 (by decide) (fun j hj => absurd hj (by omega))
  exact ⟨ha.1, ha.2, hb⟩

/-! ## Deadlines -/

/-- The `tcpDeadline` pair held by the session (`uc/uctypes.go`):
standard and alternate `time.Duration` values. -/
structure TCPDeadline where
  stdDuration : Int
  altDuration : Int
deriving DecidableEq, Repr

/-- Model of `calConn.setTCPDeadline` (`uc/uc.go:305`): the deadline placed
on the connection (now + chosen duration) together with the updated state.
An armed (positive) alternate duration is used once and reset to zero. -/
def setTCPDeadline (now : Int) (d : TCPDeadline) : Int × TCPDeadline :=
  if d.altDuration > 0 then (now + d.altDuration, { d with altDuration := 0 })
  else (now + d.stdDuration, d)

/-- C7: one `setTCPDeadline` call with a positive alternate duration sets the
deadline to now + altDuration and clears altDuration, so the next call uses
the standard duration; with altDuration = 0 the standard duration is used
and the state is unchanged. -/
theorem setTCPDeadline_spec (now now2 : Int) (d : TCPDeadline) :
    (d.altDuration > 0 →
      (setTCPDeadline now d).1 = now + d.altDuration ∧
      ((setTCPDeadline now d).2).altDuration = 0 ∧
      (setTCPDeadline now2 (setTCPDeadline now d).2).1 = now2 + d.stdDuration) ∧
    (d.altDuration = 0 →
      (setTCPDeadline now d).1 = now + d.stdDuration ∧
      (setTCPDeadline now d).2 = d) := by
  constructor <;> intro h <;> simp [setTCPDeadline, h]

/-- Witness for C7 with the standard 60s duration and a 300s alternate. -/
theorem setTCPDeadline_spec_witness :
    (0 : Int) < 300 ∧
    (setTCPDeadline 1000 ⟨60, 300⟩).1 = 1000 + 300 ∧
    ((setTCPDeadline 1000 ⟨60, 300⟩).2).altDuration = 0 ∧
    (setTCPDeadline 2000 (setTCPDeadline 1000 ⟨60, 300⟩).2).1 = 2000 + 60 :=
  ⟨by decide, (setTCPDeadline_spec 1000 2000 ⟨60, 300⟩).1 (by decide)⟩

/-- Model of the alternate-deadline computation armed by `sendBook`
(`uc/uc.go:721`) and `getBook` (`uc/uc.go:793`):
`time.Duration(int(float64(length)/float64(102400)+1)*2) * time.Second`,
expressed in seconds.  The `float64` quotient is modelled by the exact
rational value and `int(...)` by the floor (the operand is ≥ 1); at the
small magnitudes the claims exercise the float operations are exact. -/
def altDeadlineSeconds (length : Nat) : Int :=
  ⌊(length : ℚ) / 102400 + 1⌋ * 2

/-- The formula the claim states: `max(2, 2 * ceil(length / 102400))`. -/
def claimAltDeadlineSeconds (length : Nat) : Int :=
  max 2 (2 * ⌈(length : ℚ) / 102400⌉)

/-- C5 counterexample: at a book length of exactly 102400 bytes the code arms
4 seconds while the claimed formula yields 2. -/
theorem altDeadline_cex :
    altDeadlineSeconds 102400 = 4 ∧ claimAltDeadlineSeconds 102400 = 2 ∧
    altDeadlineSeconds 102400 ≠ claimAltDeadlineSeconds 102400 := by
  have h1 : altDeadlineSeconds 102400 = 4 := by
    unfold altDeadlineSeconds
    norm_num
  have h2 : claimAltDeadlineSeconds 102400 = 2 := by
    unfold claimAltDeadlineSeconds
    norm_num
  exact ⟨h1, h2, by rw [h1, h2]; decide⟩

/-- C5 amended: for every length L ≥ 0 the armed alternate deadline equals
`2 * (⌊L / 102400⌋ + 1)` seconds (which coincides with the claimed
`max(2, 2·⌈L/102400⌉)` except at positive exact multiples of 102400). -/
theorem altDeadline_eq (L : Nat) :
    altDeadlineSeconds L = 2 * ((L / 102400 : Nat) + 1) := by
  unfold altDeadlineSeconds
  have hcast : ((L : ℚ) / 102400) = ((L : ℤ) : ℚ) / ((102400 : ℕ) : ℚ) := by
    norm_num
  rw [hcast, Int.floor_add_one, Rat.floor_intCast_div_natCast]
  push_cast
  ring

/-! ## The steady-state dispatcher of `calConn.Start` (`uc/uc.go:205`–`249`) -/

/-- The handlers named by the cases of the opcode switch in `Start`. -/
inductive Handler where
  | hGetInitInfo
  | hHandleMessage
  | hGetDeviceInfo
  | hSetDeviceInfo
  | hGetFreeSpace
  | hGetBookCount
  | hUpdateDeviceMetadata
  | hSetLibraryInfo
  | hSendBook
  | hDeleteBook
  | hGetBook
  | hHandleNoop
deriving DecidableEq, Repr

/-- The opcode switch of `Start`: the source lists exactly these twelve cases
(getInitializationInfo=9, displayMessage=17, getDeviceInformation=3,
setCalibreDeviceInfo=1, freeSpace=5, getBookCount=6, sendBooklists=7,
setLibraryInfo=19, sendBook=8, deleteBook=13, getBookFileSegment=14,
noop=12) and has no default branch. -/
def startDispatch : Int → Option Handler
  | 9 => some .hGetInitInfo
  | 17 => some .hHandleMessage
  | 3 => some .hGetDeviceInfo
  | 1 => some .hSetDeviceInfo
  | 5 => some .hGetFreeSpace
  | 6 => some .hGetBookCount
  | 7 => some .hUpdateDeviceMetadata
  | 19 => some .hSetLibraryInfo
  | 8 => some .hSendBook
  | 13 => some .hDeleteBook
  | 14 => some .hGetBook
  | 12 => some .hHandleNoop
  | _ => none

/-- The precomputed ok frame `6[0,\x7b\x7d]` (`uc/uc.go:62`). -/
def okStr : String := "6[0,\x7b\x7d]"

/-- Observable outcome of one iteration of the steady-state loop: the frames
written to the transport, the error carried out of the switch, and whether
the loop exits. -/
structure IterOutcome where
  writes : List String
  err : Option String
  exits : Bool
deriving DecidableEq, Repr

/-- One steady-state loop iteration of `Start` on an already-decoded frame,
parameterized by the behaviour of the individual handlers: when the switch
has no case for the opcode, no handler runs, so nothing is written, `err`
stays nil, and the loop continues. -/
def startIter (run : Handler → IterOutcome) (op : Int) : IterOutcome :=
  match startDispatch op with
  | some h => run h
  | none => { writes := [], err := none, exits := false }

/-- C1 counterexample: opcode 4 (`totalSpace`) reaches no case of the switch
and the iteration writes nothing — in particular not the ok frame the claim
asserts. -/
theorem unknown_opcode_no_reply_cex :
    startDispatch 4 = none ∧
    (startIter (fun _ => ⟨[okStr], none, false⟩) 4).writes = [] ∧
    ([] : List String) ≠ [okStr] := by
  refine ⟨rfl, rfl, by decide⟩

/-- C1 amended: a frame whose opcode is outside the dispatched set (e.g. 4,
11, 15, 18 or any unlisted opcode) is ignored silently — the session loop
writes no frame at all (not the ok frame), reports no error, and remains in
the steady-state loop. -/
theorem unknown_opcode_ignored (run : Handler → IterOutcome) (op : Int)
    (h : op ∉ ([9, 17, 3, 1, 5, 6, 7, 19, 8, 13, 14, 12] : List Int)) :
    startIter run op = ⟨[], none, false⟩ := by
  unfold startIter
  have hd : startDispatch op = none := by
    unfold startDispatch
    split <;> simp_all
  rw [hd]

/-- Witness for the amended C1 theorem at opcode 18 (`calibreBusy`). -/
theorem unknown_opcode_ignored_witness :
    (18 : Int) ∉ ([9, 17, 3, 1, 5, 6, 7, 19, 8, 13, 14, 12] : List Int) ∧
    startIter (fun _ => ⟨[okStr], none, false⟩) 18 = ⟨[], none, false⟩ :=
  ⟨by decide, unknown_opcode_ignored _ 18 (by decide)⟩

/-! ## The `deleteBook` handler (`uc/uc.go:734`–`760`) -/

/-- `BookID` (`uc/uctypes.go`): the identifier passed to the collaborator. -/
structure BookID where
  Lpath : String
  UUID : String
deriving DecidableEq, Repr

/-- The observable events `deleteBook` produces, in order: the initial ok
frame, the collaborator `DeleteBook` calls, the `uuid` reply frames and the
progress reports. -/
inductive DelEvent where
  | wroteOk
  | calledDelete (b : BookID)
  | wroteUuid (uuid : String)
  | progress (pct : Nat)
deriving DecidableEq, Repr

/-- The per-lpath loop of `deleteBook`, parameterized by whether the
collaborator's `DeleteBook` fails on a given book.  For each lpath in order:
look it up (a miss aborts with the fatal "lpath not in db to delete" error),
call the collaborator, write the `uuid` frame, remove the catalog entry and
report progress.  Returns the events, the final catalog and whether the
handler returned without error. -/
def deleteBookLoop (delFail : BookID → Bool) (total : Nat) :
    UncagedDB → List String → Nat → List DelEvent × UncagedDB × Bool
  | db, [], _ => ([], db, true)
  | db, lp :: rest, i =>
    match db.find .Lpath (.inr lp) with
    | none => ([], db, false)
    | some r =>
      let bID : BookID := ⟨r.2.Lpath, r.2.UUID⟩
      if delFail bID then ([.calledDelete bID], db, false)
      else
        let db' := (db.removeEntry .Lpath (.inr lp)).getD db
        let t := deleteBookLoop delFail total db' rest (i + 1)
        (.calledDelete bID :: .wroteUuid r.2.UUID ::
          .progress ((i + 1) * 100 / total) :: t.1, t.2)

/-- Model of `calConn.deleteBook`: the ok frame is written first (before the
lpaths are even decoded), then the loop runs. -/
def deleteBook (delFail : BookID → Bool) (db : UncagedDB) (lpaths : List String) :
    List DelEvent × UncagedDB × Bool :=
  let t := deleteBookLoop delFail lpaths.length db lpaths 0
  (.wroteOk :: t.1, t.2)

/-- Index of the first lpath that is missing from the catalog when the list
is processed sequentially (each hit removes its entry before the next
lookup). -/
def firstMissing : UncagedDB → List String → Option Nat
  | _, [] => none
  | db, lp :: rest =>
    match db.find .Lpath (.inr lp) with
    | none => some 0
    | some _ =>
      (firstMissing ((db.removeEntry .Lpath (.inr lp)).getD db) rest).map fun n => n + 1

/-- Sequential removal of a list of lpaths (a miss leaves the catalog
unchanged). -/
def removeSeq (db : UncagedDB) (lps : List String) : UncagedDB :=
  lps.foldl (fun d lp => (d.removeEntry .Lpath (.inr lp)).getD d) db

/-- The per-item event trace the claim describes: for each lpath found, the
collaborator call with that entry's `(lpath, uuid)`, the `uuid` reply frame
and the progress report, the catalog entry being removed before the next
item; the trace stops at the first missing lpath. -/
def delEvents : UncagedDB → List String → Nat → Nat → List DelEvent
  | _, [], _, _ => []
  | db, lp :: rest, i, total =>
    match db.find .Lpath (.inr lp) with
    | none => []
    | some r =>
      .calledDelete ⟨r.2.Lpath, r.2.UUID⟩ :: .wroteUuid r.2.UUID ::
        .progress ((i + 1) * 100 / total) ::
        delEvents ((db.removeEntry .Lpath (.inr lp)).getD db) rest (i + 1) total

theorem deleteBookLoop_char (delFail : BookID → Bool)
    (hdel : ∀ b, delFail b = false) (total : Nat) :
    ∀ (lps : List String) (db : UncagedDB) (i : Nat),
      (deleteBookLoop delFail total db lps i).1 = delEvents db lps i total ∧
      (firstMissing db lps = none →
        (deleteBookLoop delFail total db lps i).2.2 = true ∧
        (deleteBookLoop delFail total db lps i).2.1 = removeSeq db lps) ∧
      (∀ k, firstMissing db lps = some k →
        (deleteBookLoop delFail total db lps i).2.2 = false ∧
        (deleteBookLoop delFail total db lps i).2.1 = removeSeq db (lps.take k)) := by
  intro lps
  induction lps with
  | nil =>
    intro db i
    refine ⟨rfl, fun _ => ⟨rfl, rfl⟩, fun k hk => absurd hk (by simp [firstMissing])⟩
  | cons lp rest ih =>
    intro db i
    unfold deleteBookLoop delEvents firstMissing
    cases hf : db.find .Lpath (.inr lp) with
    | none =>
      dsimp only
      refine ⟨rfl, fun hnone => absurd hnone (by simp), ?_⟩
      intro k hk
      have : k = 0 := by simpa using hk.symm
      subst this
      exact ⟨rfl, rfl⟩
    | some r =>
      dsimp only
      rw [hdel ⟨r.2.Lpath, r.2.UUID⟩]
      simp only [Bool.false_eq_true, if_false]
      obtain ⟨ihev, ihnone, ihsome⟩ :=
        ih ((db.removeEntry .Lpath (.inr lp)).getD db) (i + 1)
      refine ⟨by rw [ihev], ?_, ?_⟩
      · intro hnone
        have hinner : firstMissing ((db.removeEntry .Lpath (.inr lp)).getD db) rest
            = none := by
          cases h' : firstMissing ((db.removeEntry .Lpath (.inr lp)).getD db) rest with
          | none => rfl
          | some n => rw [h'] at hnone; exact absurd hnone (by simp)
        obtain ⟨h1, h2⟩ := ihnone hinner
        exact ⟨h1, by rw [h2]; rfl⟩
      · intro k hk
        cases h' : firstMissing ((db.removeEntry .Lpath (.inr lp)).getD db) rest with
        | none => rw [h'] at hk; exact absurd hk (by simp)
        | some n =>
          rw [h'] at hk
          have hkn : k = n + 1 := by simpa using hk.symm
          subst hkn
          obtain ⟨h1, h2⟩ := ihsome n h'
          refine ⟨h1, ?_⟩
          rw [h2]
          rfl

/-- C6: `deleteBook` first writes the ok frame, then processes the lpaths in
order — for each one present in the catalog it calls the collaborator's
`DeleteBook` with that entry's `(lpath, uuid)`, writes the `uuid` reply
frame, removes the entry and reports progress; when every lpath is found the
handler succeeds with all of them removed, and when some lpath is missing it
returns the fatal error with exactly the entries of the previously processed
lpaths removed (per-item success, no rollback). -/
theorem deleteBook_spec (delFail : BookID → Bool) (hdel : ∀ b, delFail b = false)
    (db : UncagedDB) (lps : List String) :
    (deleteBook delFail db lps).1
      = DelEvent.wroteOk :: delEvents db lps 0 lps.length ∧
    (firstMissing db lps = none →
      (deleteBook delFail db lps).2.2 = true ∧
      (deleteBook delFail db lps).2.1 = removeSeq db lps) ∧
    (∀ k, firstMissing db lps = some k →
      (deleteBook delFail db lps).2.2 = false ∧
      (deleteBook delFail db lps).2.1 = removeSeq db (lps.take k)) := by
  obtain ⟨hev, hnone, hsome⟩ := deleteBookLoop_char delFail hdel lps.length lps db 0
  exact ⟨by rw [show (deleteBook delFail db lps).1
      = DelEvent.wroteOk :: (deleteBookLoop delFail lps.length db lps 0).1 from rfl, hev],
    hnone, hsome⟩

/-- Catalog used by the C6 witness: lpaths `a`, `b`, `c`. -/
def delDemoDB : UncagedDB :=
  ⟨3, [⟨0, "Ua", "", "a", ""⟩, ⟨1, "Ub", "", "b", ""⟩, ⟨2, "Uc", "", "c", ""⟩]⟩

/-- Witness for C6: deleting `["a", "c"]` from the catalog `a, b, c` writes
the ok frame, the two `uuid` frames and the 50%/100% progress reports in
order, succeeds, and leaves only `b`; deleting `["a", "zzz"]` fails on the
missing lpath with only `a` removed. -/
theorem deleteBook_spec_witness :
    (deleteBook (fun _ => false) delDemoDB ["a", "c"]).1
      = [.wroteOk, .calledDelete ⟨"a", "Ua"⟩, .wroteUuid "Ua", .progress 50,
          .calledDelete ⟨"c", "Uc"⟩, .wroteUuid "Uc", .progress 100] ∧
    (deleteBook (fun _ => false) delDemoDB ["a", "c"]).2.2 = true ∧
    (deleteBook (fun _ => false) delDemoDB ["a", "c"]).2.1.booklist
      = [⟨1, "Ub", "", "b", ""⟩] ∧
    (deleteBook (fun _ => false) delDemoDB ["a", "zzz"]).2.2 = false ∧
    (deleteBook (fun _ => false) delDemoDB ["a", "zzz"]).2.1.booklist
      = [⟨1, "Ub", "", "b", ""⟩, ⟨2, "Uc", "", "c", ""⟩] := by
  have hok := deleteBook_spec (fun _ => false) (fun _ => rfl) delDemoDB ["a", "c"]
  have hfail := deleteBook_spec (fun _ => false) (fun _ => rfl) delDemoDB ["a", "zzz"]
  have h1 := hok.2.1 (by decide)
  have h2 := hfail.2.2 1 (by decide)
  refine ⟨by rw [hok.1]; decide, h1.1, by rw [h1.2]; decide, h2.1, by rw [h2.2]; decide⟩

/-! ## Nullability of metadata fields before transmission
(`CalibreBookMeta.InitMaps`, and its call sites in the non-cached branch of
`getBookCount` (`uc/uc.go:597`) and in `resendMetadataList`
(`uc/uc.go:626`)). -/

/-- The JSON text `null`. -/
def nullChars : List Char := ['n', 'u', 'l', 'l']

/-- JSON text of a Go `[]string` field: `encoding/json` marshals a nil slice
as `null` and a non-nil one as a bracketed list. -/
def serSlice : Option (List String) → List Char
  | none => nullChars
  | some xs =>
    '[' :: ((String.intercalate "," (xs.map fun s => "\"" ++ s ++ "\"")).data ++ [']'])

/-- JSON text of a Go map field: `encoding/json` marshals a nil map as
`null` and a non-nil one as a braced object (values carried here as their
raw JSON text). -/
def serMap : Option (List (String × String)) → List Char
  | none => nullChars
  | some kvs =>
    lbraceCh :: ((String.intercalate ","
      (kvs.map fun kv => "\"" ++ kv.1 ++ "\":" ++ kv.2)).data ++ [rbraceCh])

/-- Model of `CalibreBookMeta.InitMaps` (`part_006:500`): each nil map is
replaced by an empty one; the slice fields (authors, languages, tags) are
not touched. -/
def CalibreBookMeta.InitMaps (m : CalibreBookMeta) : CalibreBookMeta :=
  { m with
    UserMetadata := some (m.UserMetadata.getD []),
    UserCategories := some (m.UserCategories.getD []),
    AuthorSortMap := some (m.AuthorSortMap.getD []),
    AuthorLinkMap := some (m.AuthorLinkMap.getD []),
    Identifiers := some (m.Identifiers.getD []) }

/-- The per-record transformation both metadata transmit paths apply before
marshalling: `md.InitMaps()` in `getBookCount`'s non-cached branch and in
`resendMetadataList`. -/
def transmitMeta (m : CalibreBookMeta) : CalibreBookMeta := m.InitMaps

theorem serMap_some_ne_null (kvs : List (String × String)) :
    serMap (some kvs) ≠ nullChars := by
  unfold serMap nullChars
  intro h
  injection h with h1 _
  exact absurd h1 (by decide)

/-- C8 counterexample: a record whose `authors`, `languages` and `tags`
slices are nil still marshals those fields as `null` after the transmit
paths run `InitMaps` — not as `[]` as the claim asserts for sequence
fields. -/
theorem meta_sequence_null_cex :
    serSlice (transmitMeta
      ⟨"U", "l", none, none, none, none, none, none, none, none⟩).Authors = nullChars ∧
    serSlice (transmitMeta
      ⟨"U", "l", none, none, none, none, none, none, none, none⟩).Languages = nullChars ∧
    serSlice (transmitMeta
      ⟨"U", "l", none, none, none, none, none, none, none, none⟩).Tags = nullChars ∧
    nullChars ≠ ['[', ']'] := by
  exact ⟨rfl, rfl, rfl, by decide⟩

/-- C8 amended: on both transmit paths the five mapping fields
(`user_metadata`, `user_categories`, `author_sort_map`, `author_link_map`,
`identifiers`) never serialize as `null` — a nil map serializes as `\x7b\x7d`
after `InitMaps` — but the sequence fields (`authors`, `languages`, `tags`)
are not initialized and a nil one still serializes as `null`. -/
theorem transmitMeta_map_fields_not_null (m : CalibreBookMeta) :
    serMap (transmitMeta m).UserMetadata ≠ nullChars ∧
    serMap (transmitMeta m).UserCategories ≠ nullChars ∧
    serMap (transmitMeta m).AuthorSortMap ≠ nullChars ∧
    serMap (transmitMeta m).AuthorLinkMap ≠ nullChars ∧
    serMap (transmitMeta m).Identifiers ≠ nullChars ∧
    (m.UserMetadata = none →
      serMap (transmitMeta m).UserMetadata = [lbraceCh, rbraceCh]) ∧
    (m.Authors = none → serSlice (transmitMeta m).Authors = nullChars) := by
  refine ⟨serMap_some_ne_null _, serMap_some_ne_null _, serMap_some_ne_null _,
    serMap_some_ne_null _, serMap_some_ne_null _, ?_, ?_⟩
  · intro h
    show serMap (some (m.UserMetadata.getD [])) = _
    rw [h]
    rfl
  · intro h
    show serSlice m.Authors = nullChars
    rw [h]
    rfl

/-- Witness for the amended C8 theorem at the all-nil record. -/
theorem transmitMeta_map_fields_not_null_witness :
    serMap (transmitMeta
      ⟨"U", "l", none, none, none, none, none, none, none, none⟩).UserMetadata
      ≠ nullChars ∧
    serMap (transmitMeta
      ⟨"U", "l", none, none, none, none, none, none, none, none⟩).UserMetadata
      = [lbraceCh, rbraceCh] ∧
    serSlice (transmitMeta
      ⟨"U", "l", none, none, none, none, none, none, none, none⟩).Authors
      = nullChars := by
  have h := transmitMeta_map_fields_not_null
    ⟨"U", "l", none, none, none, none, none, none, none, none⟩
  exact ⟨h.1, h.2.2.2.2.2.1 rfl, h.2.2.2.2.2.2 rfl⟩

/-! ## Custom-column datetime display format
(`parseNextFmt` and `parseCalDateTimeFmtStr`, `part_003:118`–`187`). -/

/-- Model of `strings.Contains`. -/
def containsSeq : List Char → List Char → Bool
  | [], sub => sub.isEmpty
  | c :: rest, sub => sub.isPrefixOf (c :: rest) || containsSeq rest sub

/-- Model of `parseNextFmt`: longest-prefix token match, yielding the Go
reference-time element and how many further characters the caller skips. -/
def parseNextFmt (fmt : List Char) (use24 : Bool) : List Char × Nat :=
  if ("dddd".data).isPrefixOf fmt then ("Monday".data, 3)
  else if ("ddd".data).isPrefixOf fmt then ("Mon".data, 2)
  else if ("dd".data).isPrefixOf fmt then ("02".data, 1)
  else if ("d".data).isPrefixOf fmt then ("2".data, 0)
  else if ("MMMM".data).isPrefixOf fmt then ("January".data, 3)
  else if ("MMM".data).isPrefixOf fmt then ("Jan".data, 2)
  else if ("MM".data).isPrefixOf fmt then ("01".data, 1)
  else if ("M".data).isPrefixOf fmt then ("1".data, 0)
  else if ("yyyy".data).isPrefixOf fmt then ("2006".data, 3)
  else if ("yy".data).isPrefixOf fmt then ("06".data, 1)
  else if ("hh".data).isPrefixOf fmt then
    (if use24 then ("15".data, 1) else ("03".data, 1))
  else if ("h".data).isPrefixOf fmt then
    (if use24 then ("15".data, 0) else ("3".data, 0))
  else if ("mm".data).isPrefixOf fmt then ("04".data, 1)
  else if ("m".data).isPrefixOf fmt then ("4".data, 0)
  else if ("ss".data).isPrefixOf fmt then ("05".data, 1)
  else if ("s".data).isPrefixOf fmt then ("5".data, 0)
  else if ("ap".data).isPrefixOf fmt then ("pm".data, 1)
  else if ("AP".data).isPrefixOf fmt then ("PM".data, 1)
  else ([], 0)

/-- The rune loop of `parseCalDateTimeFmtStr` with its skip counter.  The
extra fuel argument (instantiated with the input length) only bounds the
iteration count; each step consumes at least one character, so it is never
exhausted. -/
def parseCalLoop (use24 : Bool) : Nat → List Char → List Char
  | 0, _ => []
  | _, [] => []
  | fuel + 1, c :: rest =>
    if c = 'd' ∨ c = 'M' ∨ c = 'y' ∨ c = 'h' ∨ c = 'm' ∨ c = 's' ∨ c = 'a' ∨ c = 'A' then
      (parseNextFmt (c :: rest) use24).1 ++
        parseCalLoop use24 fuel (rest.drop (parseNextFmt (c :: rest) use24).2)
    else c :: parseCalLoop use24 fuel rest

/-- Go's `time.RFC3339` layout constant. -/
def RFC3339 : String := "2006-01-02T15:04:05Z07:00"

/-- Model of `parseCalDateTimeFmtStr` (`part_003:165`): `"iso"` yields
RFC3339; otherwise 24-hour mode holds unless the pattern contains `ap` or
`AP`, and the pattern is rewritten token by token. -/
def parseCalDateTimeFmtStr (calFmt : String) : String :=
  if calFmt = "iso" then RFC3339
  else
    ⟨parseCalLoop
      (!(containsSeq calFmt.data "ap".data || containsSeq calFmt.data "AP".data))
      calFmt.data.length calFmt.data⟩

set_option maxRecDepth 4000 in
/-- C9: `"iso"` yields the RFC3339 layout; each Qt-style token maps to the
corresponding Go reference-time element (`h`/`hh` 24-hour unless the pattern
contains `ap`/`AP`, 12-hour otherwise); and the composite pattern
`"hh:mm:ss ap dddd dd MMMM yyyy"` yields
`"03:04:05 pm Monday 02 January 2006"`. -/
theorem parseCalDateTimeFmtStr_spec :
    parseCalDateTimeFmtStr "iso" = "2006-01-02T15:04:05Z07:00" ∧
    parseCalDateTimeFmtStr "hh:mm:ss ap dddd dd MMMM yyyy"
      = "03:04:05 pm Monday 02 January 2006" ∧
    parseCalDateTimeFmtStr "d" = "2" ∧ parseCalDateTimeFmtStr "dd" = "02" ∧
    parseCalDateTimeFmtStr "ddd" = "Mon" ∧ parseCalDateTimeFmtStr "dddd" = "Monday" ∧
    parseCalDateTimeFmtStr "M" = "1" ∧ parseCalDateTimeFmtStr "MM" = "01" ∧
    parseCalDateTimeFmtStr "MMM" = "Jan" ∧ parseCalDateTimeFmtStr "MMMM" = "January" ∧
    parseCalDateTimeFmtStr "yy" = "06" ∧ parseCalDateTimeFmtStr "yyyy" = "2006" ∧
    parseCalDateTimeFmtStr "h" = "15" ∧ parseCalDateTimeFmtStr "hh" = "15" ∧
    parseCalDateTimeFmtStr "h ap" = "3 pm" ∧ parseCalDateTimeFmtStr "hh ap" = "03 pm" ∧
    parseCalDateTimeFmtStr "hh AP" = "03 PM" ∧
    parseCalDateTimeFmtStr "m" = "4" ∧ parseCalDateTimeFmtStr "mm" = "04" ∧
    parseCalDateTimeFmtStr "s" = "5" ∧ parseCalDateTimeFmtStr "ss" = "05" := by
  decide

end UNCaGED
